import Mathlib

/-!
Verification of the `MeshOptimizerGD` GDExtension wrapper
(`addons/meshoptimizer/src/meshoptimizer_gdext.cpp`).

The wrapper converts Godot packed arrays to flat buffers, calls the
meshoptimizer library, and packages the results into a `Dictionary`.
The wrapper code is embedded faithfully from the source; the library
entry points (`meshopt_simplify`, `meshopt_generateVertexRemap`,
`meshopt_optimizeVertexCache`, ...) are not part of the repository
sources, so they are modelled from the specification, as noted in
their doc comments.

Coordinates are modelled as rationals (`ℚ`); float equality in the
code corresponds to exact equality of the modelled values.  Godot
`Dictionary` results are modelled as association lists from `String`
keys to a `GVal` variant type, in insertion order.
-/

/-- A 3-component vertex position (`Vector3` / three packed floats). -/
abbrev Vec3 : Type := ℚ × ℚ × ℚ

/-- A 2-component UV coordinate (`Vector2`). -/
abbrev Vec2 : Type := ℚ × ℚ

/-- Default vertex used with `List.getD`. -/
def vzero : Vec3 := ((0 : ℚ), (0 : ℚ), (0 : ℚ))

/-- A Godot `Variant` value, restricted to the types the wrapper stores
into result dictionaries. -/
inductive GVal : Type where
  | gstr (s : String)
  | gint (n : Int)
  | gfloat (q : ℚ)
  | gints (l : List Nat)
  | gvec3s (l : List Vec3)
  | gvec2s (l : List Vec2)
deriving DecidableEq

/-- A Godot `Dictionary`, as an association list in insertion order. -/
abbrev Dict : Type := List (String × GVal)

/-- Group an index buffer into triangles: consecutive triples, any
trailing partial triple dropped (a valid index buffer has length
divisible by 3, per the data model). -/
def toTris : List Nat → List (Nat × Nat × Nat)
  | a :: b :: c :: rest => (a, b, c) :: toTris rest
  | _ => []

/-- Flatten a triangle list back into an index buffer. -/
def ofTris : List (Nat × Nat × Nat) → List Nat
  | [] => []
  | (a, b, c) :: rest => a :: b :: c :: ofTris rest

/-- Squared Euclidean distance between two positions. -/
def sqDist (a b : Vec3) : ℚ :=
  (a.1 - b.1) ^ 2 + (a.2.1 - b.2.1) ^ 2 + (a.2.2 - b.2.2) ^ 2

theorem length_ofTris (ts : List (Nat × Nat × Nat)) :
    (ofTris ts).length = 3 * ts.length := by
  induction ts with
  | nil => rfl
  | cons t rest ih =>
    obtain ⟨a, b, c⟩ := t
    simp [ofTris, ih]
    ring

theorem toTris_ofTris (ts : List (Nat × Nat × Nat)) :
    toTris (ofTris ts) = ts := by
  induction ts with
  | nil => rfl
  | cons t rest ih =>
    obtain ⟨a, b, c⟩ := t
    simp [ofTris, toTris, ih]

theorem length_toTris_le (idx : List Nat) :
    3 * (toTris idx).length ≤ idx.length := by
  match idx with
  | a :: b :: c :: rest =>
    have ih := length_toTris_le rest
    simp only [toTris, List.length_cons]
    omega
  | [] => simp [toTris]
  | [a] => simp [toTris]
  | [a, b] => simp [toTris]

theorem length_toTris_eq {idx : List Nat} (h : 3 ∣ idx.length) :
    3 * (toTris idx).length = idx.length := by
  match idx with
  | a :: b :: c :: rest =>
    have hr : 3 ∣ rest.length := by
      simp only [List.length_cons] at h
      omega
    have ih := length_toTris_eq hr
    simp only [toTris, List.length_cons]
    omega
  | [] => simp [toTris]
  | [a] => simp at h
  | [a, b] => simp at h; omega

/-- Modelled from the spec (the meshoptimizer library sources are not part
of this repository): the welding pass keeps the first occurrence of each
distinct position, in input order.  `uniqVerts l` is the list of distinct
vertices of `l` in first-seen order. -/
def uniqVerts : List Vec3 → List Vec3
  | [] => []
  | v :: rest => v :: (uniqVerts rest).filter (fun w => decide (w ≠ v))

theorem mem_uniqVerts (l : List Vec3) (x : Vec3) : x ∈ uniqVerts l ↔ x ∈ l := by
  induction l with
  | nil => simp [uniqVerts]
  | cons v rest ih =>
    simp only [uniqVerts, List.mem_cons, List.mem_filter, ih, decide_eq_true_eq]
    by_cases hxv : x = v
    · simp [hxv]
    · simp [hxv]

theorem nodup_uniqVerts (l : List Vec3) : (uniqVerts l).Nodup := by
  induction l with
  | nil => simp [uniqVerts]
  | cons v rest ih =>
    rw [uniqVerts]
    refine List.nodup_cons.mpr ⟨?_, ih.filter _⟩
    intro hv
    have := (List.mem_filter.mp hv).2
    simp at this

theorem uniqVerts_append (l1 l2 : List Vec3) :
    ∃ t, uniqVerts (l1 ++ l2) = uniqVerts l1 ++ t := by
  induction l1 with
  | nil => exact ⟨uniqVerts l2, by simp [uniqVerts]⟩
  | cons v rest ih =>
    obtain ⟨t, ht⟩ := ih
    refine ⟨t.filter (fun w => decide (w ≠ v)), ?_⟩
    rw [List.cons_append, uniqVerts, uniqVerts, ht, List.filter_append]
    simp

theorem uniqVerts_snoc {l : List Vec3} {x : Vec3} (hx : x ∉ l) :
    uniqVerts (l ++ [x]) = uniqVerts l ++ [x] := by
  induction l with
  | nil => simp [uniqVerts]
  | cons v rest ih =>
    have hxv : x ≠ v := fun h => hx (h ▸ List.mem_cons_self v rest)
    have hxr : x ∉ rest := fun h => hx (List.mem_cons_of_mem v h)
    rw [List.cons_append, uniqVerts, uniqVerts, ih hxr, List.filter_append]
    simp [hxv]

/-- Index of the first occurrence of a position, with the `BEq` instance
derived from decidable equality (exact comparison, as the library performs). -/
def vIndexOf (v : Vec3) (l : List Vec3) : Nat :=
  @List.indexOf Vec3 instBEqOfDecidableEq v l

/-- Modelled from the spec: the remap table maps each original vertex to the
canonical index of its first-seen duplicate; the canonical index of a vertex
is its position in the first-seen unique list. -/
def remapTable (vs : List Vec3) : List Nat :=
  vs.map (fun v => vIndexOf v (uniqVerts vs))

/-- Modelled from the spec: `meshopt_generateVertexRemap` (library source not
in the repository).  The library compares positions by exact equality — it
takes no tolerance parameter — and assigns canonical indices as a dense range
in first-seen order.  Returns the remap table and the unique vertex count. -/
def meshopt_generateVertexRemap (vs : List Vec3) : List Nat × Nat :=
  (remapTable vs, (uniqVerts vs).length)

/-- Modelled from the spec: `meshopt_remapVertexBuffer` (library source not in
the repository) — produces the deduplicated vertex buffer in canonical order. -/
def meshopt_remapVertexBuffer (vs : List Vec3) : List Vec3 :=
  uniqVerts vs

/-- Entry `i` of the remap table (0 out of range). -/
def remapAt (vs : List Vec3) (i : Nat) : Nat :=
  (remapTable vs).getD i 0

/-- Vertex `i` of a buffer (`vzero` out of range). -/
def vertAt (vs : List Vec3) (i : Nat) : Vec3 :=
  vs.getD i vzero

theorem length_remapTable (vs : List Vec3) : (remapTable vs).length = vs.length := by
  simp [remapTable]

theorem remapAt_eq_indexOf {vs : List Vec3} {i : Nat} (hi : i < vs.length) :
    remapAt vs i = vIndexOf (vertAt vs i) (uniqVerts vs) := by
  unfold remapAt remapTable vertAt
  rw [List.getD_eq_getElem _ _ (by simpa using hi), List.getD_eq_getElem _ _ hi,
    List.getElem_map]

theorem vertAt_mem {vs : List Vec3} {i : Nat} (hi : i < vs.length) :
    vertAt vs i ∈ vs := by
  rw [vertAt, List.getD_eq_getElem _ _ hi]
  exact List.getElem_mem _

theorem remapAt_eq_iff {vs : List Vec3} {i j : Nat}
    (hi : i < vs.length) (hj : j < vs.length) :
    remapAt vs i = remapAt vs j ↔ vertAt vs i = vertAt vs j := by
  rw [remapAt_eq_indexOf hi, remapAt_eq_indexOf hj]
  unfold vIndexOf
  exact List.indexOf_inj ((mem_uniqVerts _ _).mpr (vertAt_mem hi))
    ((mem_uniqVerts _ _).mpr (vertAt_mem hj))

theorem remapAt_lt {vs : List Vec3} {i : Nat} (hi : i < vs.length) :
    remapAt vs i < (uniqVerts vs).length := by
  rw [remapAt_eq_indexOf hi]
  unfold vIndexOf
  exact List.indexOf_lt_length.mpr ((mem_uniqVerts _ _).mpr (vertAt_mem hi))

theorem remapAt_surjective {vs : List Vec3} {k : Nat}
    (hk : k < (uniqVerts vs).length) :
    ∃ i, i < vs.length ∧ remapAt vs i = k := by
  have hmem : (uniqVerts vs)[k] ∈ vs := (mem_uniqVerts _ _).mp (List.getElem_mem hk)
  obtain ⟨i, hi, hv⟩ := List.mem_iff_getElem.mp hmem
  refine ⟨i, hi, ?_⟩
  rw [remapAt_eq_indexOf hi]
  have hvert : vertAt vs i = (uniqVerts vs)[k] := by
    rw [vertAt, List.getD_eq_getElem _ _ hi, hv]
  rw [hvert]
  unfold vIndexOf
  have hlt : @List.indexOf Vec3 instBEqOfDecidableEq (uniqVerts vs)[k] (uniqVerts vs) <
      (uniqVerts vs).length :=
    List.indexOf_lt_length.mpr (List.getElem_mem hk)
  have hgot := List.getElem_indexOf (a := (uniqVerts vs)[k]) hlt
  exact (List.Nodup.getElem_inj_iff (nodup_uniqVerts vs)).mp hgot

theorem remapAt_first_seen {vs : List Vec3} {i : Nat} (hi : i < vs.length)
    (hfresh : vertAt vs i ∉ vs.take i) :
    remapAt vs i = (uniqVerts (vs.take i)).length := by
  have hvi : vertAt vs i = vs[i] := by rw [vertAt, List.getD_eq_getElem _ _ hi]
  have htake : vs.take (i + 1) = vs.take i ++ [vertAt vs i] := by
    rw [hvi, List.take_succ, List.getElem?_eq_getElem hi]
    rfl
  have hsnoc : uniqVerts (vs.take (i + 1)) = uniqVerts (vs.take i) ++ [vertAt vs i] := by
    rw [htake]
    exact uniqVerts_snoc hfresh
  obtain ⟨t, ht⟩ := uniqVerts_append (vs.take (i + 1)) (vs.drop (i + 1))
  rw [List.take_append_drop] at ht
  have hnm : vertAt vs i ∉ uniqVerts (vs.take i) := fun h =>
    hfresh ((mem_uniqVerts _ _).mp h)
  rw [remapAt_eq_indexOf hi]
  unfold vIndexOf
  rw [ht, hsnoc, List.append_assoc, List.indexOf_append_of_not_mem hnm]
  simp

/-- The index-remapping loop of `weld_vertices`
(`new_indices[i] = remap[indices[i]]`).  The C++ loop indexes `remap` with the
raw input index without any bounds check; an out-of-range access is undefined
behaviour, modelled as the absence of a result. -/
def lookupIdx (remap : List Nat) : List Nat → Option (List Nat)
  | [] => some []
  | i :: rest =>
    match remap.get? i, lookupIdx remap rest with
    | some v, some tl => some (v :: tl)
    | _, _ => none

theorem lookupIdx_oob {remap : List Nat} {idx : List Nat} {i : Nat}
    (hmem : i ∈ idx) (hge : remap.length ≤ i) :
    lookupIdx remap idx = none := by
  induction idx with
  | nil => cases hmem
  | cons j rest ih =>
    rcases List.mem_cons.mp hmem with hji | hrest
    · subst hji
      have : remap.get? i = none := List.get?_eq_none.mpr hge
      rw [lookupIdx, this]
    · rw [lookupIdx, ih hrest]
      cases remap.get? j <;> rfl

theorem lookupIdx_ok {remap : List Nat} {idx : List Nat}
    (h : ∀ i ∈ idx, i < remap.length) :
    lookupIdx remap idx = some (idx.map (fun i => remap.getD i 0)) := by
  induction idx with
  | nil => rfl
  | cons j rest ih =>
    have hj : j < remap.length := h j (List.mem_cons_self j rest)
    have hr : ∀ i ∈ rest, i < remap.length := fun i hi =>
      h i (List.mem_cons_of_mem j hi)
    rw [lookupIdx, ih hr, List.get?_eq_getElem? , List.getElem?_eq_getElem hj]
    simp [List.getD_eq_getElem _ _ hj, List.getElem?_eq_getElem hj]

/-- Embedded from `MeshOptimizerGD::weld_vertices`
(`meshoptimizer_gdext.cpp:359-429`).  Empty vertices yield an error
dictionary; otherwise a remap table is generated (by exact-equality welding —
the `threshold` parameter is never forwarded to the library), the deduplicated
vertex buffer is built, and the input indices are remapped through the table
without bounds checks.  The result dictionary holds the new vertices, the new
indices, the original count and the unique count. -/
def weld_vertices (vs : List Vec3) (idx : List Nat) (threshold : ℚ) : Option Dict :=
  if vs = [] then some [("error", GVal.gstr "Empty vertices")]
  else
    match lookupIdx (meshopt_generateVertexRemap vs).1 idx with
    | none => none
    | some ni =>
      some [("vertices", GVal.gvec3s (meshopt_remapVertexBuffer vs)),
        ("indices", GVal.gints ni),
        ("original_count", GVal.gint vs.length),
        ("unique_count", GVal.gint (meshopt_generateVertexRemap vs).2)]

/-- Embedded from the wrappers (lines 50-53, 120-122, 208-210):
`target_index_count = (size_t)(index_count * target_ratio)`, then raised to a
minimum of 3.  The float-to-integer cast truncates; values below zero clamp
to zero before the minimum is applied. -/
def effectiveTarget (indexCount : Nat) (ratio : ℚ) : Nat :=
  max 3 (Int.toNat ⌊(indexCount : ℚ) * ratio⌋)

/-- Modelled from the spec: candidate selection of the collapse queue — the
lowest-cost candidate is taken, ties broken by earliest position (the fixed
secondary key demanded by the determinism contract).  Returns the selected
triangle, its cost, and the remaining triangles. -/
def extractMin (cost : (Nat × Nat × Nat) → ℚ) :
    List (Nat × Nat × Nat) → Option ((Nat × Nat × Nat) × ℚ × List (Nat × Nat × Nat))
  | [] => none
  | t :: rest =>
    match extractMin cost rest with
    | none => some (t, cost t, [])
    | some (u, cu, rrest) =>
      if cu < cost t then some (u, cu, t :: rrest) else some (t, cost t, rest)

/-- Modelled from the spec: the greedy collapse loop.  It repeatedly removes
the lowest-cost candidate and stops when the remaining triangle count reaches
the target, the queue is empty, or the next candidate's cost exceeds the
error bound (the bound takes precedence).  The achieved error is the largest
accepted cost.  Structured on fuel; fuel `tris.length` runs to completion. -/
def collapseGo (cost : (Nat × Nat × Nat) → ℚ) (bound : ℚ) :
    Nat → Nat → List (Nat × Nat × Nat) → ℚ → List (Nat × Nat × Nat) × ℚ
  | 0, _, tris, acc => (tris, acc)
  | fuel + 1, target, tris, acc =>
    if tris.length ≤ target then (tris, acc)
    else
      match extractMin cost tris with
      | none => (tris, acc)
      | some (_, c, rest) =>
        if bound < c then (tris, acc)
        else collapseGo cost bound fuel target rest (max acc c)

/-- UV coordinate `i` of a buffer. -/
def uvAt (uvs : List Vec2) (i : Nat) : Vec2 :=
  uvs.getD i ((0 : ℚ), (0 : ℚ))

/-- Squared distance between UV coordinates. -/
def sqDist2 (a b : Vec2) : ℚ :=
  (a.1 - b.1) ^ 2 + (a.2 - b.2) ^ 2

/-- Modelled from the spec: the geometric collapse cost of a triangle's
cheapest edge — the squared length of the shortest edge stands in for the
quadric error of collapsing it (the quadric accumulation itself is
library-internal). -/
def geomCost (vs : List Vec3) (t : Nat × Nat × Nat) : ℚ :=
  min (sqDist (vertAt vs t.1) (vertAt vs t.2.1))
    (min (sqDist (vertAt vs t.2.1) (vertAt vs t.2.2))
      (sqDist (vertAt vs t.2.2) (vertAt vs t.1)))

/-- Modelled from the spec: attribute-weighted collapse cost — the attribute
(UV) discrepancy across the triangle's edges is scaled by the declared weight
and added to the geometric cost. -/
def attrCost (vs : List Vec3) (uvs : List Vec2) (w : ℚ) (t : Nat × Nat × Nat) : ℚ :=
  geomCost vs t + w ^ 2 *
    (sqDist2 (uvAt uvs t.1) (uvAt uvs t.2.1) +
      sqDist2 (uvAt uvs t.2.1) (uvAt uvs t.2.2) +
      sqDist2 (uvAt uvs t.2.2) (uvAt uvs t.1))

/-- Modelled from the spec: `meshopt_simplify` (library source not in the
repository) — greedy error-ordered collapse down to the target index count or
error bound; returns the reduced index buffer and the achieved error. -/
def meshopt_simplify (idx : List Nat) (vs : List Vec3)
    (targetIndexCount : Nat) (targetError : ℚ) : List Nat × ℚ :=
  let tris := toTris idx
  let r := collapseGo (geomCost vs) targetError tris.length (targetIndexCount / 3) tris 0
  (ofTris r.1, r.2)

/-- Modelled from the spec: `meshopt_simplifyWithAttributes` (library source
not in the repository) — the same loop driven by the attribute-weighted
cost. -/
def meshopt_simplifyWithAttributes (idx : List Nat) (vs : List Vec3)
    (uvs : List Vec2) (w : ℚ) (targetIndexCount : Nat) (targetError : ℚ) :
    List Nat × ℚ :=
  let tris := toTris idx
  let r := collapseGo (attrCost vs uvs w) targetError tris.length (targetIndexCount / 3) tris 0
  (ofTris r.1, r.2)

/-- Modelled from the spec: the sloppy simplifier's uniform grid cell of a
position, at resolution `k`. -/
def gridCell (k : Nat) (v : Vec3) : Int × Int × Int :=
  (⌊v.1 * k⌋, ⌊v.2.1 * k⌋, ⌊v.2.2 * k⌋)

/-- Modelled from the spec: each vertex collapses to the first vertex that
occupies the same grid cell. -/
def sloppyRemap (vs : List Vec3) (k : Nat) (i : Nat) : Nat :=
  vs.findIdx (fun w => decide (gridCell k w = gridCell k (vertAt vs i)))

/-- Modelled from the spec: `meshopt_simplifySloppy` (library source not in
the repository) — topology-agnostic grid clustering: vertices collapse per
cell, degenerate triangles are dropped, and the reported error is the largest
squared positional deviation.  The grid resolution grows with the target
count (a simplified stand-in for the library's sizing search). -/
def meshopt_simplifySloppy (idx : List Nat) (vs : List Vec3)
    (targetIndexCount : Nat) (targetError : ℚ) : List Nat × ℚ :=
  let k := targetIndexCount + 1
  let tris := (toTris idx).map
    (fun t => (sloppyRemap vs k t.1, sloppyRemap vs k t.2.1, sloppyRemap vs k t.2.2))
  let keep := tris.filter
    (fun t => decide (t.1 ≠ t.2.1 ∧ t.2.1 ≠ t.2.2 ∧ t.2.2 ≠ t.1))
  let err := (List.range vs.length).foldl
    (fun m i => max m (sqDist (vertAt vs i) (vertAt vs (sloppyRemap vs k i)))) 0
  (ofTris keep, err)

/-- Embedded from `MeshOptimizerGD::simplify` (`meshoptimizer_gdext.cpp:35-101`):
empty input yields an error dictionary; otherwise the target index count is
computed with the minimum-3 clamp, the library simplifier runs, and the result
dictionary holds the new indices, the unchanged vertices, the achieved error
and the triangle counts. -/
def simplify (vertices : List Vec3) (indices : List Nat)
    (target_ratio target_error : ℚ) : Dict :=
  if vertices = [] ∨ indices = [] then [("error", GVal.gstr "Empty input")]
  else
    let r := meshopt_simplify indices vertices
      (effectiveTarget indices.length target_ratio) target_error
    [("indices", GVal.gints r.1),
      ("vertices", GVal.gvec3s vertices),
      ("result_error", GVal.gfloat r.2),
      ("original_triangles", GVal.gint ((indices.length : Int) / 3)),
      ("simplified_triangles", GVal.gint ((r.1.length : Int) / 3))]

/-- Embedded from `MeshOptimizerGD::simplify_with_attributes`
(`meshoptimizer_gdext.cpp:103-191`): empty input yields an error dictionary;
when the UV array matches the vertex count the attribute-aware simplifier
runs and the result also carries the UVs; otherwise the function falls back
to plain `simplify` (the `uv_weight` is then unused). -/
def simplify_with_attributes (vertices : List Vec3) (indices : List Nat)
    (uvs : List Vec2) (target_ratio target_error uv_weight : ℚ) : Dict :=
  if vertices = [] ∨ indices = [] then [("error", GVal.gstr "Empty input")]
  else if uvs.length = vertices.length then
    let r := meshopt_simplifyWithAttributes indices vertices uvs uv_weight
      (effectiveTarget indices.length target_ratio) target_error
    [("indices", GVal.gints r.1),
      ("vertices", GVal.gvec3s vertices),
      ("uvs", GVal.gvec2s uvs),
      ("result_error", GVal.gfloat r.2),
      ("original_triangles", GVal.gint ((indices.length : Int) / 3)),
      ("simplified_triangles", GVal.gint ((r.1.length : Int) / 3))]
  else simplify vertices indices target_ratio target_error

/-- Embedded from `MeshOptimizerGD::simplify_sloppy`
(`meshoptimizer_gdext.cpp:193-257`): same shape as `simplify`, calling the
sloppy library simplifier. -/
def simplify_sloppy (vertices : List Vec3) (indices : List Nat)
    (target_ratio target_error : ℚ) : Dict :=
  if vertices = [] ∨ indices = [] then [("error", GVal.gstr "Empty input")]
  else
    let r := meshopt_simplifySloppy indices vertices
      (effectiveTarget indices.length target_ratio) target_error
    [("indices", GVal.gints r.1),
      ("vertices", GVal.gvec3s vertices),
      ("result_error", GVal.gfloat r.2),
      ("original_triangles", GVal.gint ((indices.length : Int) / 3)),
      ("simplified_triangles", GVal.gint ((r.1.length : Int) / 3))]

/-- The `"indices"` entry of a result dictionary (empty if absent). -/
def dictIndices (d : Dict) : List Nat :=
  match d.lookup "indices" with
  | some (GVal.gints l) => l
  | _ => []

/-- The `"result_error"` entry of a result dictionary (0 if absent). -/
def dictResultError (d : Dict) : ℚ :=
  match d.lookup "result_error" with
  | some (GVal.gfloat q) => q
  | _ => 0

theorem extractMin_eq_none {cost : (Nat × Nat × Nat) → ℚ}
    {l : List (Nat × Nat × Nat)} :
    extractMin cost l = none ↔ l = [] := by
  cases l with
  | nil => simp [extractMin]
  | cons t rest =>
    simp only [extractMin]
    cases extractMin cost rest with
    | none => simp
    | some p =>
      obtain ⟨u, cu, rrest⟩ := p
      by_cases h : cu < cost t <;> simp [h]

theorem extractMin_length {cost : (Nat × Nat × Nat) → ℚ} :
    ∀ {l : List (Nat × Nat × Nat)} {u : Nat × Nat × Nat} {c : ℚ}
      {r : List (Nat × Nat × Nat)},
      extractMin cost l = some (u, c, r) → r.length + 1 = l.length := by
  intro l
  induction l with
  | nil => intro u c r h; simp [extractMin] at h
  | cons t rest ih =>
    intro u c r h
    rw [extractMin] at h
    cases hm : extractMin cost rest with
    | none =>
      rw [hm] at h
      have : rest = [] := extractMin_eq_none.mp hm
      subst this
      simp at h
      simp [h.2.2]
    | some p =>
      obtain ⟨u2, cu, rrest⟩ := p
      rw [hm] at h
      have hr := ih hm
      dsimp only at h
      by_cases hc : cu < cost t
      · rw [if_pos hc] at h
        simp at h
        rw [← h.2.2]
        simp only [List.length_cons]
        omega
      · rw [if_neg hc] at h
        simp at h
        rw [← h.2.2]
        simp

theorem collapseGo_length_le (cost : (Nat × Nat × Nat) → ℚ) (bound : ℚ) :
    ∀ (fuel target : Nat) (tris : List (Nat × Nat × Nat)) (acc : ℚ),
      ((collapseGo cost bound fuel target tris acc).1).length ≤ tris.length := by
  intro fuel
  induction fuel with
  | zero => intro target tris acc; simp [collapseGo]
  | succ fuel ih =>
    intro target tris acc
    rw [collapseGo]
    by_cases h : tris.length ≤ target
    · simp [h]
    · rw [if_neg h]
      cases hm : extractMin cost tris with
      | none => simp
      | some p =>
        obtain ⟨u, c, rest⟩ := p
        by_cases hb : bound < c
        · simp [hb]
        · dsimp only
          rw [if_neg hb]
          have hlen := extractMin_length hm
          have := ih target rest (max acc c)
          omega

theorem collapseGo_acc_le (cost : (Nat × Nat × Nat) → ℚ) (bound : ℚ) :
    ∀ (fuel target : Nat) (tris : List (Nat × Nat × Nat)) (acc : ℚ),
      acc ≤ (collapseGo cost bound fuel target tris acc).2 := by
  intro fuel
  induction fuel with
  | zero => intro target tris acc; simp [collapseGo]
  | succ fuel ih =>
    intro target tris acc
    rw [collapseGo]
    by_cases h : tris.length ≤ target
    · simp [h]
    · rw [if_neg h]
      cases hm : extractMin cost tris with
      | none => simp
      | some p =>
        obtain ⟨u, c, rest⟩ := p
        by_cases hb : bound < c
        · simp [hb]
        · dsimp only
          rw [if_neg hb]
          exact le_trans (le_max_left acc c) (ih target rest (max acc c))

theorem collapseGo_anti (cost : (Nat × Nat × Nat) → ℚ) (bound : ℚ) :
    ∀ (fuel t1 t2 : Nat) (tris : List (Nat × Nat × Nat)) (acc : ℚ), t2 ≤ t1 →
      (collapseGo cost bound fuel t1 tris acc).2 ≤
        (collapseGo cost bound fuel t2 tris acc).2 := by
  intro fuel
  induction fuel with
  | zero => intro t1 t2 tris acc _; simp [collapseGo]
  | succ fuel ih =>
    intro t1 t2 tris acc ht
    by_cases h2 : tris.length ≤ t2
    · have h1 : tris.length ≤ t1 := le_trans h2 ht
      rw [collapseGo, if_pos h1, collapseGo, if_pos h2]
    · by_cases h1 : tris.length ≤ t1
      · rw [collapseGo, if_pos h1, collapseGo, if_neg h2]
        cases hm : extractMin cost tris with
        | none => simp
        | some p =>
          obtain ⟨u, c, rest⟩ := p
          by_cases hb : bound < c
          · simp [hb]
          · dsimp only
            rw [if_neg hb]
            exact le_trans (le_max_left acc c) (collapseGo_acc_le cost bound fuel t2 rest _)
      · rw [collapseGo, if_neg h1, collapseGo, if_neg h2]
        cases hm : extractMin cost tris with
        | none => simp
        | some p =>
          obtain ⟨u, c, rest⟩ := p
          by_cases hb : bound < c
          · simp [hb]
          · dsimp only
            rw [if_neg hb, if_neg hb]
            exact ih t1 t2 rest (max acc c) ht

theorem meshopt_simplify_length_le (idx : List Nat) (vs : List Vec3)
    (target : Nat) (err : ℚ) :
    (meshopt_simplify idx vs target err).1.length ≤ idx.length ∧
      3 ∣ (meshopt_simplify idx vs target err).1.length := by
  unfold meshopt_simplify
  dsimp only
  rw [length_ofTris]
  constructor
  · calc 3 * (collapseGo (geomCost vs) err (toTris idx).length (target / 3)
        (toTris idx) 0).1.length
        ≤ 3 * (toTris idx).length := by
          have := collapseGo_length_le (geomCost vs) err (toTris idx).length
            (target / 3) (toTris idx) 0
          omega
      _ ≤ idx.length := length_toTris_le idx
  · exact Dvd.intro _ rfl

theorem meshopt_simplifyWithAttributes_length_le (idx : List Nat) (vs : List Vec3)
    (uvs : List Vec2) (w : ℚ) (target : Nat) (err : ℚ) :
    (meshopt_simplifyWithAttributes idx vs uvs w target err).1.length ≤ idx.length ∧
      3 ∣ (meshopt_simplifyWithAttributes idx vs uvs w target err).1.length := by
  unfold meshopt_simplifyWithAttributes
  dsimp only
  rw [length_ofTris]
  constructor
  · calc 3 * (collapseGo (attrCost vs uvs w) err (toTris idx).length (target / 3)
        (toTris idx) 0).1.length
        ≤ 3 * (toTris idx).length := by
          have := collapseGo_length_le (attrCost vs uvs w) err (toTris idx).length
            (target / 3) (toTris idx) 0
          omega
      _ ≤ idx.length := length_toTris_le idx
  · exact Dvd.intro _ rfl

theorem meshopt_simplifySloppy_length_le (idx : List Nat) (vs : List Vec3)
    (target : Nat) (err : ℚ) :
    (meshopt_simplifySloppy idx vs target err).1.length ≤ idx.length ∧
      3 ∣ (meshopt_simplifySloppy idx vs target err).1.length := by
  unfold meshopt_simplifySloppy
  dsimp only
  rw [length_ofTris]
  refine ⟨?_, Dvd.intro _ rfl⟩
  have h1 := List.length_filter_le
    (fun t : Nat × Nat × Nat => decide (t.1 ≠ t.2.1 ∧ t.2.1 ≠ t.2.2 ∧ t.2.2 ≠ t.1))
    ((toTris idx).map (fun t => (sloppyRemap vs (target + 1) t.1,
      sloppyRemap vs (target + 1) t.2.1, sloppyRemap vs (target + 1) t.2.2)))
  rw [List.length_map] at h1
  have h2 := length_toTris_le idx
  omega

theorem effectiveTarget_mono {n : Nat} {r1 r2 : ℚ} (h : r2 ≤ r1) :
    effectiveTarget n r2 ≤ effectiveTarget n r1 := by
  unfold effectiveTarget
  have hmul : (n : ℚ) * r2 ≤ (n : ℚ) * r1 :=
    mul_le_mul_of_nonneg_left h (by positivity)
  have hfloor : ⌊(n : ℚ) * r2⌋ ≤ ⌊(n : ℚ) * r1⌋ := Int.floor_le_floor hmul
  have htn : (⌊(n : ℚ) * r2⌋).toNat ≤ (⌊(n : ℚ) * r1⌋).toNat :=
    Int.toNat_le_toNat hfloor
  omega

theorem effectiveTarget_ge (n : Nat) (r : ℚ) : 3 ≤ effectiveTarget n r :=
  le_max_left 3 _

theorem effectiveTarget_clamp {n : Nat} {r : ℚ}
    (h : Int.toNat ⌊(n : ℚ) * r⌋ < 3) : effectiveTarget n r = 3 := by
  unfold effectiveTarget
  omega

theorem simplify_nonempty {vs : List Vec3} {idx : List Nat}
    (hv : vs ≠ []) (hi : idx ≠ []) (r e : ℚ) :
    simplify vs idx r e =
      [("indices", GVal.gints
          (meshopt_simplify idx vs (effectiveTarget idx.length r) e).1),
        ("vertices", GVal.gvec3s vs),
        ("result_error", GVal.gfloat
          (meshopt_simplify idx vs (effectiveTarget idx.length r) e).2),
        ("original_triangles", GVal.gint ((idx.length : Int) / 3)),
        ("simplified_triangles", GVal.gint
          (((meshopt_simplify idx vs (effectiveTarget idx.length r) e).1.length : Int) / 3))] := by
  rw [simplify, if_neg (by simp [hv, hi])]

theorem simplify_sloppy_nonempty {vs : List Vec3} {idx : List Nat}
    (hv : vs ≠ []) (hi : idx ≠ []) (r e : ℚ) :
    simplify_sloppy vs idx r e =
      [("indices", GVal.gints
          (meshopt_simplifySloppy idx vs (effectiveTarget idx.length r) e).1),
        ("vertices", GVal.gvec3s vs),
        ("result_error", GVal.gfloat
          (meshopt_simplifySloppy idx vs (effectiveTarget idx.length r) e).2),
        ("original_triangles", GVal.gint ((idx.length : Int) / 3)),
        ("simplified_triangles", GVal.gint
          (((meshopt_simplifySloppy idx vs (effectiveTarget idx.length r) e).1.length : Int) / 3))] := by
  rw [simplify_sloppy, if_neg (by simp [hv, hi])]

theorem dictIndices_result (l : List Nat) (vs : List Vec3) (q : ℚ) (a b : Int) :
    dictIndices [("indices", GVal.gints l), ("vertices", GVal.gvec3s vs),
      ("result_error", GVal.gfloat q), ("original_triangles", GVal.gint a),
      ("simplified_triangles", GVal.gint b)] = l := rfl

theorem dictResultError_result (l : List Nat) (vs : List Vec3) (q : ℚ) (a b : Int) :
    dictResultError [("indices", GVal.gints l), ("vertices", GVal.gvec3s vs),
      ("result_error", GVal.gfloat q), ("original_triangles", GVal.gint a),
      ("simplified_triangles", GVal.gint b)] = q := rfl

theorem lookup_error_result (l : List Nat) (vs : List Vec3) (q : ℚ) (a b : Int) :
    List.lookup "error" [("indices", GVal.gints l), ("vertices", GVal.gvec3s vs),
      ("result_error", GVal.gfloat q), ("original_triangles", GVal.gint a),
      ("simplified_triangles", GVal.gint b)] = none := rfl

theorem dictIndices_uv_result (l : List Nat) (vs : List Vec3) (uvs : List Vec2)
    (q : ℚ) (a b : Int) :
    dictIndices [("indices", GVal.gints l), ("vertices", GVal.gvec3s vs),
      ("uvs", GVal.gvec2s uvs), ("result_error", GVal.gfloat q),
      ("original_triangles", GVal.gint a),
      ("simplified_triangles", GVal.gint b)] = l := rfl

/-- Sample vertex buffer used by the concrete witnesses: four corners of a
unit square. -/
def sampleVs : List Vec3 :=
  [((0 : ℚ), (0 : ℚ), (0 : ℚ)), ((1 : ℚ), (0 : ℚ), (0 : ℚ)),
   ((0 : ℚ), (1 : ℚ), (0 : ℚ)), ((1 : ℚ), (1 : ℚ), (0 : ℚ))]

/-- Sample index buffer used by the concrete witnesses: the square's two
triangles. -/
def sampleIdx : List Nat := [0, 1, 2, 1, 3, 2]

/-- C1: the claim says a zero-length vertex array makes `simplify` return
empty output indices with achieved error 0 and no error indication.  At the
concrete input `simplify [] [0,1,2] 1 (1/100)` the wrapper instead returns a
dictionary whose only entry is the error string `"Empty input"`: an error IS
signalled, and no `"indices"` or `"result_error"` entry exists. -/
theorem simplify_empty_input_signals_error :
    (simplify [] [0, 1, 2] 1 (1 / 100)).lookup "error"
        = some (GVal.gstr "Empty input") ∧
      (simplify [] [0, 1, 2] 1 (1 / 100)).lookup "indices" = none ∧
      (simplify [] [0, 1, 2] 1 (1 / 100)).lookup "result_error" = none :=
  ⟨rfl, rfl, rfl⟩

/-- C1 (amended): a zero-length vertex array or zero-length index array makes
`simplify`, `simplify_with_attributes` and `simplify_sloppy` return a
dictionary carrying only the entry `("error", "Empty input")`: the degenerate
call is signalled through the error channel and produces no indices and no
achieved-error value. -/
theorem empty_input_returns_error_dictionary (vs : List Vec3) (idx : List Nat)
    (uvs : List Vec2) (r e w : ℚ) (h : vs = [] ∨ idx = []) :
    simplify vs idx r e = [("error", GVal.gstr "Empty input")] ∧
      simplify_with_attributes vs idx uvs r e w
        = [("error", GVal.gstr "Empty input")] ∧
      simplify_sloppy vs idx r e = [("error", GVal.gstr "Empty input")] := by
  refine ⟨?_, ?_, ?_⟩
  · rw [simplify, if_pos h]
  · rw [simplify_with_attributes, if_pos h]
  · rw [simplify_sloppy, if_pos h]

theorem empty_input_returns_error_dictionary_witness :
    (([] : List Vec3) = [] ∨ ([0] : List Nat) = []) ∧
      (simplify [] [0] 1 (1 / 100) = [("error", GVal.gstr "Empty input")] ∧
        simplify_with_attributes [] [0] [] 1 (1 / 100) 1
          = [("error", GVal.gstr "Empty input")] ∧
        simplify_sloppy [] [0] 1 (1 / 100)
          = [("error", GVal.gstr "Empty input")]) :=
  ⟨Or.inl rfl,
    empty_input_returns_error_dictionary [] [0] [] 1 (1 / 100) 1 (Or.inl rfl)⟩

/-- C5: for accepted inputs (non-empty buffers, index count divisible by 3)
the index buffers returned by `simplify`, `simplify_with_attributes` and
`simplify_sloppy` are no longer than the input index buffer and have length
divisible by 3. -/
theorem simplify_output_bounds (vs : List Vec3) (idx : List Nat)
    (uvs : List Vec2) (r e w : ℚ)
    (hv : vs ≠ []) (hi : idx ≠ []) (hdiv : 3 ∣ idx.length) :
    ((dictIndices (simplify vs idx r e)).length ≤ idx.length ∧
        3 ∣ (dictIndices (simplify vs idx r e)).length) ∧
      ((dictIndices (simplify_with_attributes vs idx uvs r e w)).length
            ≤ idx.length ∧
        3 ∣ (dictIndices (simplify_with_attributes vs idx uvs r e w)).length) ∧
      ((dictIndices (simplify_sloppy vs idx r e)).length ≤ idx.length ∧
        3 ∣ (dictIndices (simplify_sloppy vs idx r e)).length) := by
  refine ⟨?_, ?_, ?_⟩
  · rw [simplify_nonempty hv hi, dictIndices_result]
    exact meshopt_simplify_length_le idx vs (effectiveTarget idx.length r) e
  · by_cases huv : uvs.length = vs.length
    · rw [simplify_with_attributes, if_neg (by simp [hv, hi]), if_pos huv]
      dsimp only
      rw [dictIndices_uv_result]
      exact meshopt_simplifyWithAttributes_length_le idx vs uvs w
        (effectiveTarget idx.length r) e
    · rw [simplify_with_attributes, if_neg (by simp [hv, hi]), if_neg huv,
        simplify_nonempty hv hi, dictIndices_result]
      exact meshopt_simplify_length_le idx vs (effectiveTarget idx.length r) e
  · rw [simplify_sloppy_nonempty hv hi, dictIndices_result]
    exact meshopt_simplifySloppy_length_le idx vs (effectiveTarget idx.length r) e

theorem simplify_output_bounds_witness :
    (sampleVs ≠ [] ∧ sampleIdx ≠ [] ∧ 3 ∣ sampleIdx.length) ∧
      (((dictIndices (simplify sampleVs sampleIdx (1 / 2) (1 / 100))).length
            ≤ sampleIdx.length ∧
          3 ∣ (dictIndices (simplify sampleVs sampleIdx (1 / 2) (1 / 100))).length) ∧
        ((dictIndices (simplify_with_attributes sampleVs sampleIdx []
              (1 / 2) (1 / 100) 1)).length ≤ sampleIdx.length ∧
          3 ∣ (dictIndices (simplify_with_attributes sampleVs sampleIdx []
              (1 / 2) (1 / 100) 1)).length) ∧
        ((dictIndices (simplify_sloppy sampleVs sampleIdx (1 / 2) (1 / 100))).length
            ≤ sampleIdx.length ∧
          3 ∣ (dictIndices (simplify_sloppy sampleVs sampleIdx (1 / 2) (1 / 100))).length)) :=
  ⟨⟨by decide, by decide, by decide⟩,
    simplify_output_bounds sampleVs sampleIdx [] (1 / 2) (1 / 100) 1
      (by decide) (by decide) (by decide)⟩

/-- C7: the effective target index count is clamped, never rejected: it is
raised to 3 whenever the truncated product `index_count * target_ratio` falls
below 3, it is always at least 3, and no ratio (including ratios above 1,
whose target exceeds the available index count) makes `simplify` or
`simplify_sloppy` signal an error — the output length is simply bounded by
the input length. -/
theorem simplify_target_clamped_not_rejected (vs : List Vec3) (idx : List Nat)
    (r e : ℚ) (hv : vs ≠ []) (hi : idx ≠ []) :
    (Int.toNat ⌊(idx.length : ℚ) * r⌋ < 3 → effectiveTarget idx.length r = 3) ∧
      3 ≤ effectiveTarget idx.length r ∧
      (simplify vs idx r e).lookup "error" = none ∧
      (simplify_sloppy vs idx r e).lookup "error" = none ∧
      (dictIndices (simplify vs idx r e)).length ≤ idx.length ∧
      (dictIndices (simplify_sloppy vs idx r e)).length ≤ idx.length := by
  refine ⟨fun h => effectiveTarget_clamp h, effectiveTarget_ge _ _, ?_, ?_, ?_, ?_⟩
  · rw [simplify_nonempty hv hi]
    exact lookup_error_result _ _ _ _ _
  · rw [simplify_sloppy_nonempty hv hi]
    exact lookup_error_result _ _ _ _ _
  · rw [simplify_nonempty hv hi, dictIndices_result]
    exact (meshopt_simplify_length_le idx vs (effectiveTarget idx.length r) e).1
  · rw [simplify_sloppy_nonempty hv hi, dictIndices_result]
    exact (meshopt_simplifySloppy_length_le idx vs (effectiveTarget idx.length r) e).1

theorem simplify_target_clamped_not_rejected_witness :
    (sampleVs ≠ [] ∧ sampleIdx ≠ []) ∧
      ((Int.toNat ⌊(sampleIdx.length : ℚ) * (1 / 100)⌋ < 3 →
          effectiveTarget sampleIdx.length (1 / 100) = 3) ∧
        3 ≤ effectiveTarget sampleIdx.length (1 / 100) ∧
        (simplify sampleVs sampleIdx (1 / 100) (1 / 100)).lookup "error" = none ∧
        (simplify_sloppy sampleVs sampleIdx (1 / 100) (1 / 100)).lookup "error" = none ∧
        (dictIndices (simplify sampleVs sampleIdx (1 / 100) (1 / 100))).length
            ≤ sampleIdx.length ∧
        (dictIndices (simplify_sloppy sampleVs sampleIdx (1 / 100) (1 / 100))).length
            ≤ sampleIdx.length) :=
  ⟨⟨by decide, by decide⟩,
    simplify_target_clamped_not_rejected sampleVs sampleIdx (1 / 100) (1 / 100)
      (by decide) (by decide)⟩

/-- C8: for a fixed vertex buffer, index buffer and target error, the achieved
error reported by `simplify` is anti-monotone in the target ratio: a denser
simplification request (`r2 ≤ r1`) reports an achieved error at least as
large. -/
theorem simplify_error_monotone (vs : List Vec3) (idx : List Nat) (e r1 r2 : ℚ)
    (h : r2 ≤ r1) :
    dictResultError (simplify vs idx r1 e) ≤ dictResultError (simplify vs idx r2 e) := by
  by_cases hempty : vs = [] ∨ idx = []
  · rw [simplify, if_pos hempty, simplify, if_pos hempty]
  · push_neg at hempty
    rw [simplify_nonempty hempty.1 hempty.2, simplify_nonempty hempty.1 hempty.2,
      dictResultError_result, dictResultError_result]
    unfold meshopt_simplify
    dsimp only
    exact collapseGo_anti (geomCost vs) e (toTris idx).length _ _ (toTris idx) 0
      (Nat.div_le_div_right (effectiveTarget_mono h))

theorem simplify_error_monotone_witness :
    ((1 / 2 : ℚ) ≤ 1) ∧
      dictResultError (simplify sampleVs sampleIdx 1 (1 / 100)) ≤
        dictResultError (simplify sampleVs sampleIdx (1 / 2) (1 / 100)) :=
  ⟨by norm_num,
    simplify_error_monotone sampleVs sampleIdx (1 / 100) 1 (1 / 2) (by norm_num)⟩

/-- C9: whenever the UV array's length differs from the vertex count,
`simplify_with_attributes` returns exactly the result of `simplify` (the
`uv_weight` parameter is ignored) and the result carries no `"uvs"` entry. -/
theorem simplify_with_attributes_fallback (vs : List Vec3) (idx : List Nat)
    (uvs : List Vec2) (r e w : ℚ) (h : uvs.length ≠ vs.length) :
    simplify_with_attributes vs idx uvs r e w = simplify vs idx r e ∧
      (simplify_with_attributes vs idx uvs r e w).lookup "uvs" = none := by
  by_cases hempty : vs = [] ∨ idx = []
  · constructor
    · rw [simplify_with_attributes, if_pos hempty, simplify, if_pos hempty]
    · rw [simplify_with_attributes, if_pos hempty]
      rfl
  · push_neg at hempty
    have heq : simplify_with_attributes vs idx uvs r e w = simplify vs idx r e := by
      rw [simplify_with_attributes, if_neg (by simp [hempty.1, hempty.2]), if_neg h]
    refine ⟨heq, ?_⟩
    rw [heq, simplify_nonempty hempty.1 hempty.2]
    rfl

theorem simplify_with_attributes_fallback_witness :
    (([] : List Vec2).length ≠ sampleVs.length) ∧
      (simplify_with_attributes sampleVs sampleIdx [] (1 / 2) (1 / 100) 1
          = simplify sampleVs sampleIdx (1 / 2) (1 / 100) ∧
        (simplify_with_attributes sampleVs sampleIdx [] (1 / 2) (1 / 100) 1).lookup "uvs"
          = none) :=
  ⟨by decide,
    simplify_with_attributes_fallback sampleVs sampleIdx [] (1 / 2) (1 / 100) 1 (by decide)⟩

/-- C2 (counterexample): the claim says `remap[i] == remap[j]` iff vertices
are equal exactly or within the given tolerance.  Vertices `(0,0,0)` and
`(1,0,0)` are within Euclidean distance 1 of each other, yet with tolerance 1
the weld still assigns them distinct canonical indices and reports two unique
vertices: the tolerance plays no role. -/
theorem weld_ignores_tolerance_counterexample :
    sqDist ((0 : ℚ), (0 : ℚ), (0 : ℚ)) ((1 : ℚ), (0 : ℚ), (0 : ℚ)) ≤ 1 ^ 2 ∧
      remapAt [((0 : ℚ), (0 : ℚ), (0 : ℚ)), ((1 : ℚ), (0 : ℚ), (0 : ℚ))] 0 ≠
        remapAt [((0 : ℚ), (0 : ℚ), (0 : ℚ)), ((1 : ℚ), (0 : ℚ), (0 : ℚ))] 1 ∧
      weld_vertices [((0 : ℚ), (0 : ℚ), (0 : ℚ)), ((1 : ℚ), (0 : ℚ), (0 : ℚ))] [] 1
        = some [("vertices", GVal.gvec3s
              [((0 : ℚ), (0 : ℚ), (0 : ℚ)), ((1 : ℚ), (0 : ℚ), (0 : ℚ))]),
            ("indices", GVal.gints []),
            ("original_count", GVal.gint 2),
            ("unique_count", GVal.gint 2)] :=
  ⟨by norm_num [sqDist], by decide, by decide⟩

/-- C2 (amended): the welding remap satisfies `remap[i] == remap[j]` iff
vertices `i` and `j` are exactly (bitwise) equal — the tolerance argument is
never consulted — and the canonical indices form a dense range
`[0, unique_count)` assigned in first-seen input order: every entry is below
the unique count, every canonical index is attained, and a vertex not seen
earlier receives exactly the number of distinct vertices preceding it. -/
theorem weld_remap_exact_dense_first_seen (vs : List Vec3) (i j k : Nat)
    (hi : i < vs.length) (hj : j < vs.length)
    (hk : k < (meshopt_generateVertexRemap vs).2) :
    (remapAt vs i = remapAt vs j ↔ vertAt vs i = vertAt vs j) ∧
      remapAt vs i < (meshopt_generateVertexRemap vs).2 ∧
      (∃ m, m < vs.length ∧ remapAt vs m = k) ∧
      (vertAt vs i ∉ vs.take i → remapAt vs i = (uniqVerts (vs.take i)).length) :=
  ⟨remapAt_eq_iff hi hj, remapAt_lt hi, remapAt_surjective hk,
    fun h => remapAt_first_seen hi h⟩

theorem weld_remap_exact_dense_first_seen_witness :
    (2 < 3 ∧ 1 < 3 ∧ 1 < (meshopt_generateVertexRemap
        [((0 : ℚ), (0 : ℚ), (0 : ℚ)), ((0 : ℚ), (0 : ℚ), (0 : ℚ)),
         ((1 : ℚ), (0 : ℚ), (0 : ℚ))]).2) ∧
      ((remapAt [((0 : ℚ), (0 : ℚ), (0 : ℚ)), ((0 : ℚ), (0 : ℚ), (0 : ℚ)),
            ((1 : ℚ), (0 : ℚ), (0 : ℚ))] 2 =
          remapAt [((0 : ℚ), (0 : ℚ), (0 : ℚ)), ((0 : ℚ), (0 : ℚ), (0 : ℚ)),
            ((1 : ℚ), (0 : ℚ), (0 : ℚ))] 1 ↔
          vertAt [((0 : ℚ), (0 : ℚ), (0 : ℚ)), ((0 : ℚ), (0 : ℚ), (0 : ℚ)),
            ((1 : ℚ), (0 : ℚ), (0 : ℚ))] 2 =
          vertAt [((0 : ℚ), (0 : ℚ), (0 : ℚ)), ((0 : ℚ), (0 : ℚ), (0 : ℚ)),
            ((1 : ℚ), (0 : ℚ), (0 : ℚ))] 1) ∧
        remapAt [((0 : ℚ), (0 : ℚ), (0 : ℚ)), ((0 : ℚ), (0 : ℚ), (0 : ℚ)),
            ((1 : ℚ), (0 : ℚ), (0 : ℚ))] 2 <
          (meshopt_generateVertexRemap [((0 : ℚ), (0 : ℚ), (0 : ℚ)),
            ((0 : ℚ), (0 : ℚ), (0 : ℚ)), ((1 : ℚ), (0 : ℚ), (0 : ℚ))]).2 ∧
        (∃ m, m < (3 : Nat) ∧ remapAt [((0 : ℚ), (0 : ℚ), (0 : ℚ)),
            ((0 : ℚ), (0 : ℚ), (0 : ℚ)), ((1 : ℚ), (0 : ℚ), (0 : ℚ))] m = 1) ∧
        (vertAt [((0 : ℚ), (0 : ℚ), (0 : ℚ)), ((0 : ℚ), (0 : ℚ), (0 : ℚ)),
            ((1 : ℚ), (0 : ℚ), (0 : ℚ))] 2 ∉
            ([((0 : ℚ), (0 : ℚ), (0 : ℚ)), ((0 : ℚ), (0 : ℚ), (0 : ℚ)),
              ((1 : ℚ), (0 : ℚ), (0 : ℚ))] : List Vec3).take 2 →
          remapAt [((0 : ℚ), (0 : ℚ), (0 : ℚ)), ((0 : ℚ), (0 : ℚ), (0 : ℚ)),
              ((1 : ℚ), (0 : ℚ), (0 : ℚ))] 2 =
            (uniqVerts (([((0 : ℚ), (0 : ℚ), (0 : ℚ)), ((0 : ℚ), (0 : ℚ), (0 : ℚ)),
              ((1 : ℚ), (0 : ℚ), (0 : ℚ))] : List Vec3).take 2)).length)) :=
  ⟨⟨by decide, by decide, by decide⟩,
    weld_remap_exact_dense_first_seen
      [((0 : ℚ), (0 : ℚ), (0 : ℚ)), ((0 : ℚ), (0 : ℚ), (0 : ℚ)),
       ((1 : ℚ), (0 : ℚ), (0 : ℚ))] 2 1 1 (by decide) (by decide) (by decide)⟩

/-- C3 (counterexample): the claim says malformed input (index ≥ vertex
count) is detected synchronously and reported through the result channel, and
that `weld_vertices` never indexes its remap table with an unchecked index.
At the concrete input of one vertex and index buffer `[5]`, `weld_vertices`
performs the unchecked access `remap[5]` — out of bounds, modelled as the
absence of any result — and no error entry is ever produced. -/
theorem weld_unchecked_index_counterexample :
    weld_vertices [((0 : ℚ), (0 : ℚ), (0 : ℚ))] [5] (1 / 10000) = none := rfl

/-- C3 (amended): no index validation exists.  For any non-empty vertex
buffer and any index buffer containing a value `≥` the vertex count,
`weld_vertices` reaches the unchecked out-of-bounds access `remap[indices[i]]`
(modelled as no result) instead of reporting an error through the result
channel; and an in-range index buffer whose length is not divisible by 3 is
likewise never rejected: it is processed and the result dictionary carries no
error entry. -/
theorem weld_out_of_range_index_no_error_report (vs : List Vec3)
    (idx idx2 : List Nat) (t : ℚ) (i : Nat)
    (hv : vs ≠ []) (hmem : i ∈ idx) (hge : vs.length ≤ i)
    (hidx2 : ∀ j ∈ idx2, j < vs.length) (hndiv : ¬ 3 ∣ idx2.length) :
    weld_vertices vs idx t = none ∧
      ∃ d, weld_vertices vs idx2 t = some d ∧ d.lookup "error" = none := by
  refine ⟨?_, ?_⟩
  · rw [weld_vertices, if_neg hv]
    have hlook : lookupIdx (meshopt_generateVertexRemap vs).1 idx = none := by
      apply lookupIdx_oob hmem
      simpa [meshopt_generateVertexRemap, length_remapTable] using hge
    rw [hlook]
  · rw [weld_vertices, if_neg hv]
    have hlook : lookupIdx (meshopt_generateVertexRemap vs).1 idx2
        = some (idx2.map (fun j => (meshopt_generateVertexRemap vs).1.getD j 0)) := by
      apply lookupIdx_ok
      intro j hj
      simpa [meshopt_generateVertexRemap, length_remapTable] using hidx2 j hj
    rw [hlook]
    exact ⟨_, rfl, rfl⟩

theorem weld_out_of_range_index_no_error_report_witness :
    (([((0 : ℚ), (0 : ℚ), (0 : ℚ))] : List Vec3) ≠ [] ∧ 5 ∈ ([5] : List Nat) ∧
        ([((0 : ℚ), (0 : ℚ), (0 : ℚ))] : List Vec3).length ≤ 5 ∧
        (∀ j ∈ ([0, 0] : List Nat),
          j < ([((0 : ℚ), (0 : ℚ), (0 : ℚ))] : List Vec3).length) ∧
        ¬ 3 ∣ ([0, 0] : List Nat).length) ∧
      (weld_vertices [((0 : ℚ), (0 : ℚ), (0 : ℚ))] [5] (1 / 10000) = none ∧
        ∃ d, weld_vertices [((0 : ℚ), (0 : ℚ), (0 : ℚ))] [0, 0] (1 / 10000) = some d ∧
          d.lookup "error" = none) :=
  ⟨⟨by decide, by decide, by decide, by decide, by decide⟩,
    weld_out_of_range_index_no_error_report [((0 : ℚ), (0 : ℚ), (0 : ℚ))] [5] [0, 0]
      (1 / 10000) 5 (by decide) (by decide) (by decide) (by decide) (by decide)⟩

/-- C4 (counterexample): the claim says the weld result contains the remap
table (one canonical-index entry per original vertex).  At the concrete input
of three vertices (the first two identical), the full result dictionary is
exactly four entries — deduplicated vertices, re-indexed indices, original
count and unique count — and holds no remap table: no `"remap"` key exists
and no entry has one value per original vertex. -/
theorem weld_result_lacks_remap_table :
    weld_vertices [((0 : ℚ), (0 : ℚ), (0 : ℚ)), ((0 : ℚ), (0 : ℚ), (0 : ℚ)),
        ((1 : ℚ), (0 : ℚ), (0 : ℚ))] [] (1 / 10000)
      = some [("vertices", GVal.gvec3s
            [((0 : ℚ), (0 : ℚ), (0 : ℚ)), ((1 : ℚ), (0 : ℚ), (0 : ℚ))]),
          ("indices", GVal.gints []),
          ("original_count", GVal.gint 3),
          ("unique_count", GVal.gint 2)] ∧
      ((weld_vertices [((0 : ℚ), (0 : ℚ), (0 : ℚ)), ((0 : ℚ), (0 : ℚ), (0 : ℚ)),
          ((1 : ℚ), (0 : ℚ), (0 : ℚ))] [] (1 / 10000)).getD []).lookup "remap"
        = none :=
  ⟨by decide, by decide⟩

/-- C4 (amended): for a non-empty vertex buffer whose indices are all in
range, the weld result contains the deduplicated vertex buffer, the
re-indexed index buffer (empty when no indices were supplied), the original
count and the unique count — and nothing else; the remap table itself is
discarded and not part of the result. -/
theorem weld_result_contents (vs : List Vec3) (idx : List Nat) (t : ℚ)
    (hv : vs ≠ []) (hidx : ∀ i ∈ idx, i < vs.length) :
    weld_vertices vs idx t
      = some [("vertices", GVal.gvec3s (meshopt_remapVertexBuffer vs)),
          ("indices", GVal.gints (idx.map (fun i => remapAt vs i))),
          ("original_count", GVal.gint vs.length),
          ("unique_count", GVal.gint (meshopt_generateVertexRemap vs).2)] := by
  rw [weld_vertices, if_neg hv]
  have hlook : lookupIdx (meshopt_generateVertexRemap vs).1 idx
      = some (idx.map (fun i => (meshopt_generateVertexRemap vs).1.getD i 0)) := by
    apply lookupIdx_ok
    intro i hi
    simpa [meshopt_generateVertexRemap, length_remapTable] using hidx i hi
  rw [hlook]
  rfl

theorem weld_result_contents_witness :
    (([((0 : ℚ), (0 : ℚ), (0 : ℚ)), ((0 : ℚ), (0 : ℚ), (0 : ℚ)),
          ((1 : ℚ), (0 : ℚ), (0 : ℚ))] : List Vec3) ≠ [] ∧
        (∀ i ∈ ([0, 2, 1] : List Nat), i < ([((0 : ℚ), (0 : ℚ), (0 : ℚ)),
          ((0 : ℚ), (0 : ℚ), (0 : ℚ)), ((1 : ℚ), (0 : ℚ), (0 : ℚ))] : List Vec3).length)) ∧
      weld_vertices [((0 : ℚ), (0 : ℚ), (0 : ℚ)), ((0 : ℚ), (0 : ℚ), (0 : ℚ)),
          ((1 : ℚ), (0 : ℚ), (0 : ℚ))] [0, 2, 1] (1 / 10000)
        = some [("vertices", GVal.gvec3s (meshopt_remapVertexBuffer
              [((0 : ℚ), (0 : ℚ), (0 : ℚ)), ((0 : ℚ), (0 : ℚ), (0 : ℚ)),
               ((1 : ℚ), (0 : ℚ), (0 : ℚ))])),
            ("indices", GVal.gints (([0, 2, 1] : List Nat).map
              (fun i => remapAt [((0 : ℚ), (0 : ℚ), (0 : ℚ)),
                ((0 : ℚ), (0 : ℚ), (0 : ℚ)), ((1 : ℚ), (0 : ℚ), (0 : ℚ))] i))),
            ("original_count", GVal.gint ([((0 : ℚ), (0 : ℚ), (0 : ℚ)),
              ((0 : ℚ), (0 : ℚ), (0 : ℚ)), ((1 : ℚ), (0 : ℚ), (0 : ℚ))] : List Vec3).length),
            ("unique_count", GVal.gint (meshopt_generateVertexRemap
              [((0 : ℚ), (0 : ℚ), (0 : ℚ)), ((0 : ℚ), (0 : ℚ), (0 : ℚ)),
               ((1 : ℚ), (0 : ℚ), (0 : ℚ))]).2)] :=
  ⟨⟨by decide, by decide⟩,
    weld_result_contents [((0 : ℚ), (0 : ℚ), (0 : ℚ)), ((0 : ℚ), (0 : ℚ), (0 : ℚ)),
      ((1 : ℚ), (0 : ℚ), (0 : ℚ))] [0, 2, 1] (1 / 10000) (by decide) (by decide)⟩

/-- C10: `weld_vertices` is independent of its threshold parameter — any two
threshold values produce identical results (the wrapper never forwards the
threshold to the library) — and welding merges exactly the vertices with
bitwise-identical positions: remap entries agree iff the positions are
equal. -/
theorem weld_threshold_independent (vs : List Vec3) (idx : List Nat)
    (t1 t2 : ℚ) (i j : Nat) (hi : i < vs.length) (hj : j < vs.length) :
    weld_vertices vs idx t1 = weld_vertices vs idx t2 ∧
      (remapAt vs i = remapAt vs j ↔ vertAt vs i = vertAt vs j) :=
  ⟨rfl, remapAt_eq_iff hi hj⟩

theorem weld_threshold_independent_witness :
    (0 < 3 ∧ 1 < 3) ∧
      (weld_vertices [((0 : ℚ), (0 : ℚ), (0 : ℚ)), ((0 : ℚ), (0 : ℚ), (0 : ℚ)),
            ((1 : ℚ), (0 : ℚ), (0 : ℚ))] [0, 1, 2] (1 / 10000)
          = weld_vertices [((0 : ℚ), (0 : ℚ), (0 : ℚ)), ((0 : ℚ), (0 : ℚ), (0 : ℚ)),
            ((1 : ℚ), (0 : ℚ), (0 : ℚ))] [0, 1, 2] 7 ∧
        (remapAt [((0 : ℚ), (0 : ℚ), (0 : ℚ)), ((0 : ℚ), (0 : ℚ), (0 : ℚ)),
              ((1 : ℚ), (0 : ℚ), (0 : ℚ))] 0 =
            remapAt [((0 : ℚ), (0 : ℚ), (0 : ℚ)), ((0 : ℚ), (0 : ℚ), (0 : ℚ)),
              ((1 : ℚ), (0 : ℚ), (0 : ℚ))] 1 ↔
          vertAt [((0 : ℚ), (0 : ℚ), (0 : ℚ)), ((0 : ℚ), (0 : ℚ), (0 : ℚ)),
              ((1 : ℚ), (0 : ℚ), (0 : ℚ))] 0 =
            vertAt [((0 : ℚ), (0 : ℚ), (0 : ℚ)), ((0 : ℚ), (0 : ℚ), (0 : ℚ)),
              ((1 : ℚ), (0 : ℚ), (0 : ℚ))] 1)) :=
  ⟨⟨by decide, by decide⟩,
    weld_threshold_independent [((0 : ℚ), (0 : ℚ), (0 : ℚ)), ((0 : ℚ), (0 : ℚ), (0 : ℚ)),
      ((1 : ℚ), (0 : ℚ), (0 : ℚ))] [0, 1, 2] (1 / 10000) 7 0 1 (by decide) (by decide)⟩

/-- Modelled from the spec: the simulated transform cache depth (a fixed size
reflecting common GPU cache depths). -/
def cacheSize : Nat := 16

/-- Modelled from the spec: touching a vertex in the FIFO cache — a miss
pushes the vertex and evicts the oldest entry beyond the cache depth. -/
def cacheTouch (cache : List Nat) (v : Nat) : List Nat :=
  if v ∈ cache then cache else (v :: cache).take cacheSize

/-- Touch all three vertices of a triangle. -/
def cacheInsert (cache : List Nat) (t : Nat × Nat × Nat) : List Nat :=
  cacheTouch (cacheTouch (cacheTouch cache t.1) t.2.1) t.2.2

/-- Modelled from the spec: a triangle's greedy score — the number of its
vertices already in the cache (cache hits). -/
def triScore (cache : List Nat) (t : Nat × Nat × Nat) : Nat :=
  (if t.1 ∈ cache then 1 else 0) + (if t.2.1 ∈ cache then 1 else 0) +
    (if t.2.2 ∈ cache then 1 else 0)

/-- Modelled from the spec: select the remaining triangle with the maximal
score; ties break towards the earliest triangle in the original order (the
determinism contract). -/
def chooseBest (cache : List Nat) : List (Nat × Nat × Nat) → Option (Nat × Nat × Nat)
  | [] => none
  | t :: rest =>
    match chooseBest cache rest with
    | none => some t
    | some u => if triScore cache t < triScore cache u then some u else some t

theorem chooseBest_mem {cache : List Nat} :
    ∀ {l : List (Nat × Nat × Nat)} {t : Nat × Nat × Nat},
      chooseBest cache l = some t → t ∈ l := by
  intro l
  induction l with
  | nil => intro t h; simp [chooseBest] at h
  | cons u rest ih =>
    intro t h
    rw [chooseBest] at h
    cases hm : chooseBest cache rest with
    | none =>
      rw [hm] at h
      simp at h
      simp [h]
    | some w =>
      rw [hm] at h
      dsimp only at h
      by_cases hs : triScore cache u < triScore cache w
      · rw [if_pos hs] at h
        simp at h
        exact List.mem_cons_of_mem u (h ▸ ih hm)
      · rw [if_neg hs] at h
        simp at h
        simp [h]

theorem chooseBest_eq_none {cache : List Nat} {l : List (Nat × Nat × Nat)} :
    chooseBest cache l = none ↔ l = [] := by
  cases l with
  | nil => simp [chooseBest]
  | cons t rest =>
    simp only [chooseBest]
    cases chooseBest cache rest with
    | none => simp
    | some u => by_cases h : triScore cache t < triScore cache u <;> simp [h]

/-- Erase the first occurrence of a triangle, with the `BEq` instance derived
from decidable equality. -/
def triErase (l : List (Nat × Nat × Nat)) (t : Nat × Nat × Nat) :
    List (Nat × Nat × Nat) :=
  @List.erase _ instBEqOfDecidableEq l t

/-- Modelled from the spec: the greedy reordering loop — emit the best-scored
triangle, update the simulated cache, and continue with the rest.  Structured
on fuel; fuel `tris.length` runs to completion. -/
def optLoop : Nat → List Nat → List (Nat × Nat × Nat) → List (Nat × Nat × Nat)
  | 0, _, tris => tris
  | fuel + 1, cache, tris =>
    match chooseBest cache tris with
    | none => []
    | some t => t :: optLoop fuel (cacheInsert cache t) (triErase tris t)

theorem optLoop_perm :
    ∀ (fuel : Nat) (cache : List Nat) (tris : List (Nat × Nat × Nat)),
      tris.length ≤ fuel → (optLoop fuel cache tris).Perm tris := by
  intro fuel
  induction fuel with
  | zero => intro cache tris h; rw [optLoop]
  | succ fuel ih =>
    intro cache tris h
    rw [optLoop]
    cases hm : chooseBest cache tris with
    | none =>
      rw [chooseBest_eq_none.mp hm]
    | some t =>
      dsimp only
      have hmem : t ∈ tris := chooseBest_mem hm
      have hperm2 : (t :: triErase tris t).Perm tris := by
        rw [triErase]
        exact (List.perm_cons_erase hmem).symm
      have hl2 : (triErase tris t).length + 1 = tris.length := by
        simpa using hperm2.length_eq
      have hlen : (triErase tris t).length ≤ fuel := by omega
      have hrec := ih (cacheInsert cache t) (triErase tris t) hlen
      exact (hrec.cons t).trans hperm2

/-- Modelled from the spec: `meshopt_optimizeVertexCache` (library source not
in the repository) — greedy FIFO-cache-simulation reordering of the triangle
list.  The vertex count only sizes the library's internal arrays and does not
affect the modelled reordering. -/
def meshopt_optimizeVertexCache (idx : List Nat) (vcount : Nat) : List Nat :=
  ofTris (optLoop (toTris idx).length [] (toTris idx))

/-- Embedded from `MeshOptimizerGD::optimize_vertex_cache`
(`meshoptimizer_gdext.cpp:331-357`): empty indices or a non-positive vertex
count return the input unchanged; otherwise the library reorders the
triangles. -/
def optimize_vertex_cache (indices : List Nat) (vertex_count : Int) : List Nat :=
  if indices = [] ∨ vertex_count ≤ 0 then indices
  else meshopt_optimizeVertexCache indices (Int.toNat vertex_count)

/-- C6: for a non-empty index buffer (of triangle-list length) and a positive
vertex count, `optimize_vertex_cache` returns an index buffer of identical
length whose triangle list is a permutation of the input's triangle list:
each output triple is one of the input triples, kept intact (winding
preserved), with only the order changed. -/
theorem optimize_vertex_cache_perm (indices : List Nat) (vertex_count : Int)
    (hne : indices ≠ []) (hv : 0 < vertex_count) (hdiv : 3 ∣ indices.length) :
    (optimize_vertex_cache indices vertex_count).length = indices.length ∧
      (toTris (optimize_vertex_cache indices vertex_count)).Perm (toTris indices) := by
  have hcond : ¬(indices = [] ∨ vertex_count ≤ 0) := by
    simp [hne]
    omega
  rw [optimize_vertex_cache, if_neg hcond]
  unfold meshopt_optimizeVertexCache
  have hperm := optLoop_perm (toTris indices).length [] (toTris indices) (Nat.le_refl _)
  constructor
  · rw [length_ofTris, hperm.length_eq, length_toTris_eq hdiv]
  · rw [toTris_ofTris]
    exact hperm

theorem optimize_vertex_cache_perm_witness :
    (sampleIdx ≠ [] ∧ (0 : Int) < 4 ∧ 3 ∣ sampleIdx.length) ∧
      ((optimize_vertex_cache sampleIdx 4).length = sampleIdx.length ∧
        (toTris (optimize_vertex_cache sampleIdx 4)).Perm (toTris sampleIdx)) :=
  ⟨⟨by decide, by decide, by decide⟩,
    optimize_vertex_cache_perm sampleIdx 4 (by decide) (by decide) (by decide)⟩
